import Mathlib

/-! Verification of the position/order reconciliation engine of the
`mytraderbot` repository (files `alexbot.py` and `db.py`).

The embedding is shallow: quantities, prices and PnL figures are
rationals; the Postgres tables (`positions`, `mirror_positions`,
`orders`, `closed_trades`) are association lists and an append-only
list inside an explicit `BotState`; Telegram notifications, store
writes and mirror-exchange order placements are recorded as explicit
event lists in the state so that counting and ordering properties can
be stated.  Exchange calls that can fail (the open-orders liveness
check, the mirror order placement, the protective-order query) are
supplied by an `Env` record. -/

/-- Tolerance 1e-8 used by the full-close tests in `alexbot.py`. -/
def eps8 : ℚ := 1 / 100000000

/-- Tolerance 1e-12 used by the dust tests in `alexbot.py`. -/
def eps12 : ℚ := 1 / 1000000000000

/-- Lookup in an association list modelling a keyed SQL table
(`SELECT ... WHERE key = k`, first matching row). -/
def alGet {α β : Type} [DecidableEq α] : List (α × β) → α → Option β
  | [], _ => none
  | (a, b) :: t, k => if a = k then some b else alGet t k

/-- Upsert into an association list modelling `INSERT ... ON CONFLICT
DO UPDATE`: replace the first row with the key, else append. -/
def alUpsert {α β : Type} [DecidableEq α] : List (α × β) → α → β → List (α × β)
  | [], k, v => [(k, v)]
  | (a, b) :: t, k, v => if a = k then (k, v) :: t else (a, b) :: alUpsert t k v

/-- Delete from an association list modelling `DELETE ... WHERE key = k`
(all matching rows are removed). -/
def alErase {α β : Type} [DecidableEq α] : List (α × β) → α → List (α × β)
  | [], _ => []
  | (a, b) :: t, k => if a = k then alErase t k else (a, b) :: alErase t k

/-- Apply a batch of upserts left to right. -/
def applyUpserts {α β : Type} [DecidableEq α] (l : List (α × β)) (kvs : List (α × β)) : List (α × β) :=
  kvs.foldl (fun acc kv => alUpsert acc kv.1 kv.2) l

/-- Apply a batch of deletions left to right. -/
def applyErases {α β : Type} [DecidableEq α] (l : List (α × β)) (ks : List α) : List (α × β) :=
  ks.foldl (fun acc k => alErase acc k) l

/-- Check that `pre` is an initial segment of the second list. -/
def chLead {α : Type} [DecidableEq α] : List α → List α → Bool
  | [], _ => true
  | _ :: _, [] => false
  | a :: as, b :: bs => if a = b then chLead as bs else false

/-- Check that `nd` occurs as a contiguous block inside the second list. -/
def chHasSub {α : Type} [DecidableEq α] (nd : List α) : List α → Bool
  | [] => chLead nd []
  | a :: t => chLead nd (a :: t) || chHasSub nd t

/-- Model of the Python test `"LIMIT" in otype.upper()`. -/
def isLimitLike (t : String) : Bool :=
  chHasSub "LIMIT".data (t.data.map Char.toUpper)

/-- The `CHILD_TYPES` set of `alexbot.py` (stop and take-profit order types). -/
def childTypes : List String :=
  ["STOP", "STOP_MARKET", "STOP_LOSS", "STOP_LOSS_LIMIT",
   "TAKE_PROFIT", "TAKE_PROFIT_LIMIT", "TAKE_PROFIT_MARKET"]

/-- Membership test `otype in CHILD_TYPES`. -/
def isChild (t : String) : Bool := childTypes.contains t

/-- Model of the Python test `"STOP" in otype`. -/
def hasStop (t : String) : Bool := chHasSub "STOP".data t.data

/-- Row of the `positions` / `mirror_positions` tables:
`(position_amt, entry_price, realized_pnl)`. -/
structure PosVal where
  amt : ℚ
  entry : ℚ
  rpnl : ℚ
deriving DecidableEq

/-- Row of the `orders` table: `(qty, price, status)`. -/
structure OrderVal where
  qty : ℚ
  price : ℚ
  status : String
deriving DecidableEq

/-- Row of the append-only `closed_trades` table. -/
structure ClosedTrade where
  symbol : String
  side : String
  volume : ℚ
  pnl : ℚ
  fakeVolume : ℚ
  fakePnl : ℚ
  entryPrice : ℚ
  exitPrice : ℚ
  stopPrice : ℚ
  takePrice : ℚ
  reason : String
  rr : ℚ
deriving DecidableEq

/-- One Telegram notification, tagged by the send site in `alexbot.py`. -/
inductive Note where
  | restartPos (sym side : String)
  | restartOrder (sym side : String) (oid : ℤ)
  | canceledOrder (sym : String)
  | expiredOrder (sym : String)
  | newOrder (sym side : String) (oid : ℤ)
  | childTriggered (sym : String)
  | posClosed (sym side : String)
  | posDecreased (sym side : String)
  | posOpened (sym side : String)
  | posIncreased (sym side : String)
  | mainEcho (sym : String)
  | mirrorFailClose (sym side : String)
  | mirrorFailOpen (sym side : String)
  | mirrorClosed (sym side : String)
  | mirrorDecreased (sym side : String)
  | mirrorOpened (sym side : String)
  | mirrorIncreased (sym side : String)
  | protectiveWarn (sym side : String) (oid : ℤ)
deriving DecidableEq

/-- One store (database) mutation, in execution order. -/
inductive StoreOp where
  | upsertPos (table sym side : String) (amt price pnl : ℚ)
  | deletePos (table sym side : String)
  | upsertOrder (sym side : String) (oid : ℤ) (qty price : ℚ)
  | deleteOrder (sym side : String) (oid : ℤ)
  | insertClosed (ct : ClosedTrade)
deriving DecidableEq

/-- One order placement attempted on the mirror (secondary) account. -/
structure MirrorOrder where
  symbol : String
  binSide : String
  qty : ℚ
  reduceOnly : Bool
deriving DecidableEq

/-- The bot's complete observable state: the store tables, the
in-memory caches (`base_sizes`, `initial_sizes`, `mirror_base_sizes`),
and the journals of notifications, store operations and mirror order
placements. -/
structure BotState where
  positions : List ((String × String) × PosVal)
  mirrorPositions : List ((String × String) × PosVal)
  orders : List ((String × String × ℤ) × OrderVal)
  closedTrades : List ClosedTrade
  baseSizes : List ((String × String) × ℚ)
  initialSizes : List ((String × String) × ℚ)
  mirrorBaseSizes : List ((String × String) × ℚ)
  notes : List Note
  trace : List StoreOp
  mirrorOrders : List MirrorOrder
deriving DecidableEq

/-- One decoded `ORDER_TRADE_UPDATE` WebSocket event (the `o` object),
with the fields read by `_on_order`. -/
structure Event where
  s : String
  S : String
  ot : String
  X : String
  ap : ℚ
  l : ℚ
  z : ℚ
  R : Bool
  rp : ℚ
  i : ℤ
  p : ℚ
  sp : ℚ
  q : ℚ
  cp : Bool
deriving DecidableEq

/-- Static configuration relevant to the handler. -/
structure Config where
  mirrorEnabled : Bool
  mirrorCoefficient : ℚ
  useFakeReport : Bool
  fakeCoef : ℚ
deriving DecidableEq

/-- One entry of the exchange position snapshot used by `_sync_start`. -/
structure SnapPos where
  symbol : String
  positionAmt : ℚ
  entryPrice : ℚ
deriving DecidableEq

/-- One resting order as returned by `futures_get_open_orders`. -/
structure SnapOrder where
  symbol : String
  status : String
  rawSide : String
  reduceOnly : Bool
  closePosition : Bool
  otype : String
  orderId : ℤ
  origQty : ℚ
  stopPrice : ℚ
  price : ℚ
deriving DecidableEq

/-- Outcomes of the exchange calls made while handling one event:
the per-symbol open-orders query used by the NEW liveness check, the
mirror-account order placement, and the protective-order audit query.
An `Except.error` value models the call raising an exception. -/
structure Env where
  openCheck : Except Unit (List ℤ)
  mirrorOk : Bool
  protective : Except Unit (List SnapOrder)

/-- Translation of `decode_side_ws`. -/
def decode_side_ws (e : Event) : String :=
  if e.R then (if e.S = "BUY" then "SHORT" else "LONG")
  else (if e.S = "BUY" then "LONG" else "SHORT")

/-- Translation of `decode_side_openorders`. -/
def decode_side_openorders (rawSide : String) (reduceF closepos : Bool) : String :=
  if reduceF || closepos then (if rawSide = "BUY" then "SHORT" else "LONG")
  else (if rawSide = "BUY" then "LONG" else "SHORT")

/-- Round to the nearest integer, ties to even, as Python's `round`. -/
def roundHalfEven (x : ℚ) : ℤ :=
  let f := ⌊x⌋
  let r := x - f
  if r < 1 / 2 then f
  else if 1 / 2 < r then f + 1
  else if f % 2 = 0 then f else f + 1

/-- Python's `round(x, 1)`. -/
def roundQ1 (x : ℚ) : ℚ := (roundHalfEven (10 * x) : ℚ) / 10

/-- Translation of `AlexBot._calc_rr`, including the redundant
disjunction of the source's first guard. -/
def calc_rr (side : String) (volume pnl entryPrice stopPrice takePrice : ℚ) : ℚ :=
  if (stopPrice ≤ 0 ∧ takePrice ≤ 0) ∨ stopPrice ≤ 0 then
    (if 0 ≤ pnl then 1 else -1)
  else
    let riskAmount := volume * |entryPrice - stopPrice|
    if riskAmount ≤ eps12 then (if 0 ≤ pnl then 1 else -1)
    else roundQ1 (pnl / riskAmount)

/-- Risk/reward rule written from the specification's words (stop
price ≤ 0 gives the ±1 rule; otherwise the risk amount decides), for
comparison with `calc_rr`. -/
def calcRRSpec (side : String) (volume pnl entryPrice stopPrice takePrice : ℚ) : ℚ :=
  if stopPrice ≤ 0 then (if 0 ≤ pnl then 1 else -1)
  else
    let riskAmount := volume * |entryPrice - stopPrice|
    if riskAmount ≤ eps12 then (if 0 ≤ pnl then 1 else -1)
    else roundQ1 (pnl / riskAmount)

/-- Record one Telegram send (`tg_a` / `tg_m`). -/
def addNote (st : BotState) (n : Note) : BotState :=
  { st with notes := st.notes ++ [n] }

/-- Model of `pg_upsert_position("positions", ...)`. -/
def pg_upsert_position_main (st : BotState) (sym side : String) (amt price pnl : ℚ) : BotState :=
  { st with positions := alUpsert st.positions (sym, side) ⟨amt, price, pnl⟩,
            trace := st.trace ++ [.upsertPos "positions" sym side amt price pnl] }

/-- Model of `pg_upsert_position("mirror_positions", ...)`. -/
def pg_upsert_position_mirror (st : BotState) (sym side : String) (amt price pnl : ℚ) : BotState :=
  { st with mirrorPositions := alUpsert st.mirrorPositions (sym, side) ⟨amt, price, pnl⟩,
            trace := st.trace ++ [.upsertPos "mirror_positions" sym side amt price pnl] }

/-- Model of `pg_delete_position("positions", ...)`. -/
def pg_delete_position_main (st : BotState) (sym side : String) : BotState :=
  { st with positions := alErase st.positions (sym, side),
            trace := st.trace ++ [.deletePos "positions" sym side] }

/-- Model of `pg_delete_position("mirror_positions", ...)`. -/
def pg_delete_position_mirror (st : BotState) (sym side : String) : BotState :=
  { st with mirrorPositions := alErase st.mirrorPositions (sym, side),
            trace := st.trace ++ [.deletePos "mirror_positions" sym side] }

/-- Model of `pg_upsert_order`. -/
def pg_upsert_order (st : BotState) (sym side : String) (oid : ℤ) (qty price : ℚ) (status : String) : BotState :=
  { st with orders := alUpsert st.orders (sym, side, oid) ⟨qty, price, status⟩,
            trace := st.trace ++ [.upsertOrder sym side oid qty price] }

/-- Model of `pg_delete_order`. -/
def pg_delete_order (st : BotState) (sym side : String) (oid : ℤ) : BotState :=
  { st with orders := alErase st.orders (sym, side, oid),
            trace := st.trace ++ [.deleteOrder sym side oid] }

/-- Model of `pg_insert_closed_trade`. -/
def pg_insert_closed_trade (st : BotState) (ct : ClosedTrade) : BotState :=
  { st with closedTrades := st.closedTrades ++ [ct],
            trace := st.trace ++ [.insertClosed ct] }

/-- The NEW-status liveness check of `_on_order`: with a successful
open-orders query the event is dropped when its order id is absent;
when the query raises, the code logs and continues (does not drop). -/
def phantomDrop (env : Env) (oid : ℤ) : Bool :=
  match env.openCheck with
  | Except.ok ids => !(ids.contains oid)
  | Except.error _ => false

/-- The warnings produced by the loop of `_warn_protective_orders`:
one per resting stop/take order of the same side whose quantity does
not match the new position quantity. -/
def protectiveWarnNotes (sym side : String) (newAmt : ℚ) (ords : List SnapOrder) : List Note :=
  (ords.filter (fun od =>
      od.status == "NEW" && isChild od.otype
      && (decode_side_openorders od.rawSide od.reduceOnly od.closePosition == side)
      && !(decide (|od.origQty - newAmt| ≤ eps8)))).map
    (fun od => Note.protectiveWarn sym side od.orderId)

/-- Translation of `AlexBot._warn_protective_orders`.  A failing
open-orders query aborts the audit; otherwise warnings are sent. -/
def warn_protective_orders (env : Env) (st : BotState) (sym side : String) (oldAmt newAmt : ℚ) : BotState :=
  if |newAmt - oldAmt| ≤ eps8 then st
  else
    match env.protective with
    | Except.error _ => st
    | Except.ok ords =>
        { st with notes := st.notes ++ protectiveWarnNotes sym side newAmt ords }

/-- Effects of the CANCELED branch of `_on_order`: delete the order
row, then send one notification. -/
def handleCanceled (st : BotState) (e : Event) (side : String) : BotState :=
  addNote (pg_delete_order st e.s side e.i) (.canceledOrder e.s)

/-- Effects of the EXPIRED branch of `_on_order`. -/
def handleExpired (st : BotState) (e : Event) (side : String) : BotState :=
  addNote (pg_delete_order st e.s side e.i) (.expiredOrder e.s)

/-- Effects of the NEW branch of `_on_order` (reached after the
liveness check): compute the effective quantity, skip phantom
zero-price limit-like orders, otherwise upsert the order row and send
one notification. -/
def handleNew (st : BotState) (e : Event) (side : String) : BotState :=
  let pos := alGet st.positions (e.s, side)
  let currAmt := (pos.map PosVal.amt).getD 0
  let baseAmt := if eps12 < currAmt then currAmt else (alGet st.baseSizes (e.s, side)).getD 0
  let origQty := if e.cp = true ∧ e.q < eps12 then baseAmt else e.q
  if isLimitLike e.ot = true ∧ e.p < eps12 ∧ e.sp < eps12 then st
  else if isChild e.ot = true then
    let price := if eps12 < e.sp then e.sp else e.p
    addNote (pg_upsert_order st e.s side e.i origQty price "NEW") (.newOrder e.s side e.i)
  else
    addNote (pg_upsert_order st e.s side e.i origQty e.p "NEW") (.newOrder e.s side e.i)

/-- The row inserted into `closed_trades` by the full-close branch of
`_on_order`, as a function of the pre-event state and the event. -/
def fullCloseTrade (cfg : Config) (st : BotState) (e : Event) (side : String) : ClosedTrade :=
  let pv := (alGet st.positions (e.s, side)).getD ⟨0, 0, 0⟩
  let newRpnl := pv.rpnl + e.rp
  let stopP := if isChild e.ot && hasStop e.ot then e.sp else 0
  let takeP := if isChild e.ot && !hasStop e.ot then e.sp else 0
  let reason := if isChild e.ot then (if hasStop e.ot then "stop" else "take") else "market"
  let origAmt := (alGet st.initialSizes (e.s, side)).getD pv.amt
  { symbol := e.s, side := side, volume := origAmt, pnl := newRpnl,
    fakeVolume := origAmt * cfg.fakeCoef, fakePnl := newRpnl * cfg.fakeCoef,
    entryPrice := pv.entry, exitPrice := e.ap, stopPrice := stopP,
    takePrice := takeP, reason := reason,
    rr := calc_rr side origAmt newRpnl pv.entry stopP takeP }

/-- Translation of `AlexBot._mirror_reduce`.  The order placement
attempt is always recorded; on failure the function notifies and
returns without touching `mirror_positions`. -/
def mirror_reduce (cfg : Config) (env : Env) (st : BotState) (sym side : String)
    (fillQty fillPrice eventPnl : ℚ) : BotState :=
  let old := (alGet st.mirrorPositions (sym, side)).getD ⟨0, 0, 0⟩
  let decQty := fillQty * cfg.mirrorCoefficient
  let newMPnl := old.rpnl + eventPnl * cfg.mirrorCoefficient
  let oldMAmt := if old.amt ≤ eps12 then (alGet st.mirrorBaseSizes (sym, side)).getD decQty else old.amt
  let newMAmt := oldMAmt - decQty
  let binSide := if side = "SHORT" then "BUY" else "SELL"
  let st1 := { st with mirrorOrders := st.mirrorOrders ++ [⟨sym, binSide, decQty, true⟩] }
  if env.mirrorOk = false then addNote st1 (.mirrorFailClose sym side)
  else if newMAmt ≤ eps8 then
    let st2 := pg_delete_position_mirror st1 sym side
    let st3 := { st2 with mirrorBaseSizes := alErase st2.mirrorBaseSizes (sym, side) }
    addNote st3 (.mirrorClosed sym side)
  else
    let st2 := pg_upsert_position_mirror st1 sym side newMAmt old.entry newMPnl
    let st3 := addNote st2 (.mirrorDecreased sym side)
    { st3 with mirrorBaseSizes := alUpsert st3.mirrorBaseSizes (sym, side) newMAmt }

/-- Translation of `AlexBot._mirror_increase`. -/
def mirror_increase (cfg : Config) (env : Env) (st : BotState) (sym side : String)
    (fillQty fillPrice : ℚ) : BotState :=
  let old := (alGet st.mirrorPositions (sym, side)).getD ⟨0, 0, 0⟩
  let incQty := fillQty * cfg.mirrorCoefficient
  let newMAmt := old.amt + incQty
  let binSide := if side = "LONG" then "BUY" else "SELL"
  let st1 := { st with mirrorOrders := st.mirrorOrders ++ [⟨sym, binSide, incQty, false⟩] }
  if env.mirrorOk = false then addNote st1 (.mirrorFailOpen sym side)
  else
    let avg := if eps12 < newMAmt ∧ eps12 < old.amt
               then (old.entry * old.amt + fillPrice * incQty) / newMAmt else fillPrice
    let st2 := pg_upsert_position_mirror st1 sym side newMAmt avg old.rpnl
    if old.amt < eps12 then
      addNote { st2 with mirrorBaseSizes := alUpsert st2.mirrorBaseSizes (sym, side) newMAmt }
        (.mirrorOpened sym side)
    else
      let st3 := addNote st2 (.mirrorIncreased sym side)
      { st3 with mirrorBaseSizes := alUpsert st3.mirrorBaseSizes (sym, side) newMAmt }

/-- Effects of the FILLED / PARTIALLY_FILLED branch of `_on_order`. -/
def handleFill (cfg : Config) (env : Env) (st : BotState) (e : Event) (side : String) : BotState :=
  let st1 := if isLimitLike e.ot || isChild e.ot then pg_delete_order st e.s side e.i else st
  if e.l < eps12 then st1
  else
    let st2 := if isChild e.ot then addNote st1 (.childTriggered e.s) else st1
    let old := (alGet st2.positions (e.s, side)).getD ⟨0, 0, 0⟩
    let newRpnl := old.rpnl + e.rp
    if e.R = true then
      let newAmt := old.amt - e.l
      let reason := if isChild e.ot then (if hasStop e.ot then "stop" else "take") else "market"
      let stRes :=
        if newAmt ≤ eps8 then
          let st3 := addNote st2 (.posClosed e.s side)
          let st4 := pg_insert_closed_trade st3 (fullCloseTrade cfg st2 e side)
          let st5 := pg_delete_position_main st4 e.s side
          { st5 with baseSizes := alErase st5.baseSizes (e.s, side),
                     initialSizes := alErase st5.initialSizes (e.s, side) }
        else
          let st3 := addNote st2 (.posDecreased e.s side)
          let st4 := pg_upsert_position_main st3 e.s side newAmt old.entry newRpnl
          { st4 with baseSizes := alUpsert st4.baseSizes (e.s, side) newAmt }
      let stM := if cfg.mirrorEnabled then
          mirror_reduce cfg env (addNote stRes (.mainEcho e.s)) e.s side e.l e.ap e.rp
        else stRes
      warn_protective_orders env stM e.s side old.amt newAmt
    else
      let opening := old.amt < eps12
      let qty := if e.X = "FILLED" then e.z else e.l
      let newAmt := if opening then qty else old.amt + e.l
      let mirrorAmt := if opening then qty else e.l
      let st3 :=
        if opening then
          { st2 with baseSizes := alUpsert st2.baseSizes (e.s, side) newAmt,
                     initialSizes := alUpsert st2.initialSizes (e.s, side) newAmt }
        else
          { st2 with baseSizes := alUpsert st2.baseSizes (e.s, side) newAmt,
                     initialSizes := alUpsert st2.initialSizes (e.s, side)
                       (((alGet st2.initialSizes (e.s, side)).getD old.amt) + e.l) }
      let avgPrice := if eps12 < newAmt ∧ eps12 < old.amt
                      then (old.entry * old.amt + e.ap * e.l) / newAmt else e.ap
      let st4 := addNote st3 (if opening then .posOpened e.s side else .posIncreased e.s side)
      let st5 := pg_upsert_position_main st4 e.s side newAmt avgPrice newRpnl
      let stM := if cfg.mirrorEnabled then
          mirror_increase cfg env (addNote st5 (.mainEcho e.s)) e.s side mirrorAmt e.ap
        else st5
      warn_protective_orders env stM e.s side old.amt newAmt

/-- Translation of `AlexBot._on_order`: the status dispatch, with the
NEW liveness check performed first, exactly as in the source. -/
def on_order (cfg : Config) (env : Env) (st : BotState) (e : Event) : BotState :=
  let side := decode_side_ws e
  if e.X = "NEW" ∧ phantomDrop env e.i = true then st
  else if e.X = "CANCELED" then handleCanceled st e side
  else if e.X = "EXPIRED" then handleExpired st e side
  else if e.X = "NEW" then handleNew st e side
  else if e.X = "FILLED" ∨ e.X = "PARTIALLY_FILLED" then handleFill cfg env st e side
  else st

/-- Guard of the position loop in `_sync_start`: entries with
`abs(positionAmt) < 1e-12` are skipped. -/
def posKeepB (p : SnapPos) : Bool := !(decide (|p.positionAmt| < eps12))

/-- Side decoded from the sign of the snapshot amount. -/
def snapSide (p : SnapPos) : String := if 0 < p.positionAmt then "LONG" else "SHORT"

/-- One step of the position loop of `_sync_start`, threading the
state and the accumulating `real_positions` set. -/
def snapPosStep (acc : BotState × List (String × String)) (p : SnapPos) :
    BotState × List (String × String) :=
  if posKeepB p = true then
    let side := snapSide p
    let vol := |p.positionAmt|
    let st1 := { acc.1 with baseSizes := alUpsert acc.1.baseSizes (p.symbol, side) vol }
    let st2 := addNote st1 (.restartPos p.symbol side)
    let st3 := pg_upsert_position_main st2 p.symbol side vol p.entryPrice 0
    (st3, acc.2 ++ [(p.symbol, side)])
  else acc

/-- Guard of the order loop in `_sync_start`: only status NEW is
processed, and limit-like orders with both prices below 1e-12 are
skipped. -/
def ordKeepB (od : SnapOrder) : Bool :=
  od.status == "NEW"
  && !(isLimitLike od.otype && (decide (od.price < eps12) && decide (od.stopPrice < eps12)))

/-- Side decoded for one snapshot order. -/
def ordSideOf (od : SnapOrder) : String :=
  decode_side_openorders od.rawSide od.reduceOnly od.closePosition

/-- The governing (main) price of one snapshot order. -/
def ordMainPrice (od : SnapOrder) : ℚ :=
  if isChild od.otype = true ∧ eps12 < od.stopPrice then od.stopPrice else od.price

/-- One step of the order loop of `_sync_start`. -/
def snapOrdStep (acc : BotState × List (String × String × ℤ)) (od : SnapOrder) :
    BotState × List (String × String × ℤ) :=
  if ordKeepB od = true then
    let side := ordSideOf od
    let st1 := pg_upsert_order acc.1 od.symbol side od.orderId od.origQty (ordMainPrice od) "NEW"
    let st2 := addNote st1 (.restartOrder od.symbol side od.orderId)
    (st2, acc.2 ++ [(od.symbol, side, od.orderId)])
  else acc

/-- Translation of `AlexBot._sync_start` with a fixed exchange
snapshot: upsert the snapshot positions and orders, then delete every
local row absent from the snapshot. -/
def sync_start (st : BotState) (poss : List SnapPos) (ords : List SnapOrder) : BotState :=
  let a := poss.foldl snapPosStep (st, [])
  let b := ords.foldl snapOrdStep (a.1, [])
  let posKeys := b.1.positions.map (fun kv => kv.1)
  let c := posKeys.foldl (fun s k => if k ∈ a.2 then s else pg_delete_position_main s k.1 k.2) b.1
  let ordKeys := c.orders.map (fun kv => kv.1)
  ordKeys.foldl (fun s k => if k ∈ b.2 then s else pg_delete_order s k.1 k.2.1 k.2.2) c

/-- Snapshot positions that the loop keeps. -/
def keptPos (poss : List SnapPos) : List SnapPos := poss.filter posKeepB

/-- The `real_positions` key set as a pure function of the snapshot. -/
def realPositionsOf (poss : List SnapPos) : List (String × String) :=
  (keptPos poss).map (fun p => (p.symbol, snapSide p))

/-- The position rows written by the sync loop. -/
def posKVs (poss : List SnapPos) : List ((String × String) × PosVal) :=
  (keptPos poss).map (fun p => ((p.symbol, snapSide p), ⟨|p.positionAmt|, p.entryPrice, 0⟩))

/-- The `base_sizes` entries written by the sync loop. -/
def posBaseKVs (poss : List SnapPos) : List ((String × String) × ℚ) :=
  (keptPos poss).map (fun p => ((p.symbol, snapSide p), |p.positionAmt|))

/-- The notifications sent by the position sync loop. -/
def posNotes (poss : List SnapPos) : List Note :=
  (keptPos poss).map (fun p => Note.restartPos p.symbol (snapSide p))

/-- The store operations performed by the position sync loop. -/
def posOps (poss : List SnapPos) : List StoreOp :=
  (keptPos poss).map (fun p => StoreOp.upsertPos "positions" p.symbol (snapSide p) |p.positionAmt| p.entryPrice 0)

/-- Snapshot orders that the loop keeps. -/
def keptOrd (ords : List SnapOrder) : List SnapOrder := ords.filter ordKeepB

/-- The `real_orders` key set as a pure function of the snapshot. -/
def realOrdersOf (ords : List SnapOrder) : List (String × String × ℤ) :=
  (keptOrd ords).map (fun od => (od.symbol, ordSideOf od, od.orderId))

/-- The order rows written by the sync loop. -/
def ordKVs (ords : List SnapOrder) : List ((String × String × ℤ) × OrderVal) :=
  (keptOrd ords).map (fun od => ((od.symbol, ordSideOf od, od.orderId), ⟨od.origQty, ordMainPrice od, "NEW"⟩))

/-- The notifications sent by the order sync loop. -/
def ordNotes (ords : List SnapOrder) : List Note :=
  (keptOrd ords).map (fun od => Note.restartOrder od.symbol (ordSideOf od) od.orderId)

/-- The store operations performed by the order sync loop. -/
def ordOps (ords : List SnapOrder) : List StoreOp :=
  (keptOrd ords).map (fun od => StoreOp.upsertOrder od.symbol (ordSideOf od) od.orderId od.origQty (ordMainPrice od))

/-- Position value read by `_on_order` for the event's key, with the
zero default used when the row is absent. -/
def posOf (st : BotState) (key : String × String) : PosVal :=
  (alGet st.positions key).getD ⟨0, 0, 0⟩

/-- The new quantity stored by the non-reduce (increase) branch. -/
def incQtyOf (st : BotState) (e : Event) (side : String) : ℚ :=
  if (posOf st (e.s, side)).amt < eps12 then (if e.X = "FILLED" then e.z else e.l)
  else (posOf st (e.s, side)).amt + e.l

/-- The entry price stored by the non-reduce (increase) branch. -/
def incAvgOf (st : BotState) (e : Event) (side : String) : ℚ :=
  if eps12 < incQtyOf st e side ∧ eps12 < (posOf st (e.s, side)).amt
  then ((posOf st (e.s, side)).entry * (posOf st (e.s, side)).amt + e.ap * e.l) / incQtyOf st e side
  else e.ap

/-- Store operations relevant to the full-close ordering property:
any closed-trade insert and the delete of the given `positions` row. -/
def closeOps (sym side : String) : StoreOp → Bool
  | .insertClosed _ => true
  | .deletePos t a b => t == "positions" && (a == sym && b == side)
  | _ => false

/-- Store deletions. -/
def isDeleteOp : StoreOp → Bool
  | .deletePos _ _ _ => true
  | .deleteOrder _ _ _ => true
  | _ => false

/-- Store upserts. -/
def isUpsertOp : StoreOp → Bool
  | .upsertPos _ _ _ _ _ _ => true
  | .upsertOrder _ _ _ _ _ => true
  | _ => false

/-- Invariant of the `positions` table: every stored row has a
strictly positive quantity. -/
def PosInv (st : BotState) : Prop :=
  ∀ k v, alGet st.positions k = some v → 0 < v.amt

/-- Empty state (all tables and journals empty). -/
def st0 : BotState := ⟨[], [], [], [], [], [], [], [], [], []⟩

/-- State holding one LONG position of 5 units at entry 100. -/
def stP : BotState :=
  { st0 with positions := [(("BTCUSDT", "LONG"), ⟨5, 100, 0⟩)] }

/-- State holding one LONG position of 10 units at entry 100. -/
def stI : BotState :=
  { st0 with positions := [(("BTCUSDT", "LONG"), ⟨10, 100, 0⟩)] }

/-- Configuration with mirroring disabled. -/
def cfg0 : Config := ⟨false, 1, false, 1⟩

/-- Configuration with mirroring enabled at coefficient 1/2. -/
def cfgM : Config := ⟨true, 1 / 2, false, 1⟩

/-- Environment in which every exchange call succeeds (no resting
orders anywhere) except the protective-order query, which raises. -/
def envOk : Env := ⟨Except.ok [], true, Except.error ()⟩

/-- Environment in which the open-orders liveness query raises. -/
def envErr : Env := ⟨Except.error (), true, Except.error ()⟩

/-- Environment whose open-orders query returns only order id 5. -/
def envChk : Env := ⟨Except.ok [5], true, Except.error ()⟩

/-- Environment in which the mirror order placement raises. -/
def envMFail : Env := ⟨Except.ok [], false, Except.error ()⟩

/-- NEW stop-market event for order id 42. -/
def eNew : Event :=
  ⟨"BTCUSDT", "BUY", "STOP_MARKET", "NEW", 0, 0, 0, false, 0, 42, 0, 95, 1, false⟩

/-- Market FILLED event opening a position: per-event fill 3 but
cumulative fill 10. -/
def eOpen : Event :=
  ⟨"BTCUSDT", "BUY", "MARKET", "FILLED", 100, 3, 10, false, 0, 7, 0, 0, 10, false⟩

/-- Market FILLED event opening a position of 5 at 100. -/
def eOpen5 : Event :=
  ⟨"BTCUSDT", "BUY", "MARKET", "FILLED", 100, 5, 5, false, 0, 8, 0, 0, 5, false⟩

/-- Reduce-only market fill of 5 at 110 with realized PnL 50. -/
def eClose : Event :=
  ⟨"BTCUSDT", "SELL", "MARKET", "FILLED", 110, 5, 5, true, 50, 9, 0, 0, 5, true⟩

/-- Reduce-only market fill of 2 arriving with no position row. -/
def eRed : Event :=
  ⟨"BTCUSDT", "SELL", "MARKET", "FILLED", 90, 2, 2, true, -10, 11, 0, 0, 2, false⟩

/-- PARTIALLY_FILLED limit event whose per-event fill is zero. -/
def eDust : Event :=
  ⟨"BTCUSDT", "BUY", "LIMIT", "PARTIALLY_FILLED", 0, 0, 4, false, 0, 3, 100, 0, 4, false⟩

/-- Market FILLED event adding 10 units at price 120. -/
def eAdd : Event :=
  ⟨"BTCUSDT", "BUY", "MARKET", "FILLED", 120, 10, 20, false, 0, 12, 0, 0, 10, false⟩

/-- One-position exchange snapshot. -/
def posSnap1 : List SnapPos := [⟨"BTCUSDT", 1, 100⟩]

/-- One-order exchange snapshot. -/
def ordSnap1 : List SnapOrder :=
  [⟨"BTCUSDT", "NEW", "SELL", true, false, "STOP_MARKET", 21, 1, 95, 0⟩]

/-- The store operations performed by one `_mirror_reduce` call, as a
pure function of its inputs. -/
def mirrorReduceOps (cfg : Config) (env : Env) (st : BotState) (sym side : String) (fq pp : ℚ) : List StoreOp :=
  let old := (alGet st.mirrorPositions (sym, side)).getD ⟨0, 0, 0⟩
  let decQty := fq * cfg.mirrorCoefficient
  let newMPnl := old.rpnl + pp * cfg.mirrorCoefficient
  let oldMAmt := if old.amt ≤ eps12 then (alGet st.mirrorBaseSizes (sym, side)).getD decQty else old.amt
  let newMAmt := oldMAmt - decQty
  if env.mirrorOk = false then []
  else if newMAmt ≤ eps8 then [.deletePos "mirror_positions" sym side]
  else [.upsertPos "mirror_positions" sym side newMAmt old.entry newMPnl]

/-- The store operations performed by one `_mirror_increase` call. -/
def mirrorIncreaseOps (cfg : Config) (env : Env) (st : BotState) (sym side : String) (fq fp : ℚ) : List StoreOp :=
  let old := (alGet st.mirrorPositions (sym, side)).getD ⟨0, 0, 0⟩
  let incQty := fq * cfg.mirrorCoefficient
  let newMAmt := old.amt + incQty
  if env.mirrorOk = false then []
  else
    let avg := if eps12 < newMAmt ∧ eps12 < old.amt
               then (old.entry * old.amt + fp * incQty) / newMAmt else fp
    [.upsertPos "mirror_positions" sym side newMAmt avg old.rpnl]

attribute [local semireducible] Rat.add Rat.sub Rat.mul Rat.inv Rat.ofScientific

theorem alGet_upsert_self {α β : Type} [DecidableEq α] (l : List (α × β)) (k : α) (v : β) :
    alGet (alUpsert l k v) k = some v := by
  induction l with
  | nil => simp [alUpsert, alGet]
  | cons hd t ih =>
      obtain ⟨a, b⟩ := hd
      by_cases h : a = k
      · simp [alUpsert, alGet, h]
      · simp [alUpsert, alGet, h, ih]

theorem alGet_upsert_ne {α β : Type} [DecidableEq α] (l : List (α × β)) (k k' : α) (v : β)
    (h : k' ≠ k) : alGet (alUpsert l k v) k' = alGet l k' := by
  have h' : ¬(k = k') := fun hc => h hc.symm
  induction l with
  | nil => simp [alUpsert, alGet, h']
  | cons hd t ih =>
      obtain ⟨a, b⟩ := hd
      by_cases ha : a = k
      · subst ha
        simp [alUpsert, alGet, h']
      · by_cases ha' : a = k'
        · simp [alUpsert, alGet, ha, ha', h]
        · simp [alUpsert, alGet, ha, ha', ih]

theorem alGet_erase_self {α β : Type} [DecidableEq α] (l : List (α × β)) (k : α) :
    alGet (alErase l k) k = none := by
  induction l with
  | nil => simp [alErase, alGet]
  | cons hd t ih =>
      obtain ⟨a, b⟩ := hd
      by_cases h : a = k
      · simp [alErase, h, ih]
      · simp [alErase, alGet, h, ih]

theorem alGet_erase_ne {α β : Type} [DecidableEq α] (l : List (α × β)) (k k' : α)
    (h : k' ≠ k) : alGet (alErase l k) k' = alGet l k' := by
  have h' : ¬(k = k') := fun hc => h hc.symm
  induction l with
  | nil => simp [alErase]
  | cons hd t ih =>
      obtain ⟨a, b⟩ := hd
      by_cases ha : a = k
      · subst ha
        simp [alErase, alGet, h', ih]
      · by_cases ha' : a = k'
        · simp [alErase, alGet, ha, ha', ih, h]
        · simp [alErase, alGet, ha, ha', ih]

theorem alErase_of_get_none {α β : Type} [DecidableEq α] (l : List (α × β)) (k : α)
    (h : alGet l k = none) : alErase l k = l := by
  induction l with
  | nil => simp [alErase]
  | cons hd t ih =>
      obtain ⟨a, b⟩ := hd
      by_cases ha : a = k
      · simp [alGet, ha] at h
      · simp only [alGet, if_neg ha] at h
        simp [alErase, ha, ih h]

theorem alUpsert_of_get_some {α β : Type} [DecidableEq α] (l : List (α × β)) (k : α) (v : β)
    (h : alGet l k = some v) : alUpsert l k v = l := by
  induction l with
  | nil => simp [alGet] at h
  | cons hd t ih =>
      obtain ⟨a, b⟩ := hd
      by_cases ha : a = k
      · subst ha
        have hb : b = v := by simpa [alGet] using h
        subst hb
        simp [alUpsert]
      · simp only [alGet, if_neg ha] at h
        simp [alUpsert, ha, ih h]

theorem mem_alErase {α β : Type} [DecidableEq α] (l : List (α × β)) (k : α) (kv : α × β) :
    kv ∈ alErase l k ↔ kv ∈ l ∧ kv.1 ≠ k := by
  induction l with
  | nil => simp [alErase]
  | cons hd t ih =>
      obtain ⟨a, b⟩ := hd
      by_cases ha : a = k
      · subst ha
        have hrw : alErase ((a, b) :: t) a = alErase t a := by simp [alErase]
        rw [hrw, ih]
        simp only [List.mem_cons]
        constructor
        · exact fun hx => ⟨Or.inr hx.1, hx.2⟩
        · rintro ⟨h1 | h1, h2⟩
          · exact absurd (congrArg Prod.fst h1) h2
          · exact ⟨h1, h2⟩
      · have hrw : alErase ((a, b) :: t) k = (a, b) :: alErase t k := by simp [alErase, ha]
        rw [hrw]
        simp only [List.mem_cons, ih]
        constructor
        · rintro (hx | hx)
          · subst hx
            exact ⟨Or.inl rfl, ha⟩
          · exact ⟨Or.inr hx.1, hx.2⟩
        · rintro ⟨h1 | h1, h2⟩
          · exact Or.inl h1
          · exact Or.inr ⟨h1, h2⟩

theorem applyUpserts_nil {α β : Type} [DecidableEq α] (l : List (α × β)) :
    applyUpserts l [] = l := rfl

theorem applyUpserts_cons {α β : Type} [DecidableEq α] (l : List (α × β)) (kv : α × β)
    (kvs : List (α × β)) :
    applyUpserts l (kv :: kvs) = applyUpserts (alUpsert l kv.1 kv.2) kvs := rfl

theorem alGet_applyUpserts_notmem {α β : Type} [DecidableEq α] (l : List (α × β))
    (kvs : List (α × β)) (k : α) (h : k ∉ kvs.map Prod.fst) :
    alGet (applyUpserts l kvs) k = alGet l k := by
  induction kvs generalizing l with
  | nil => rfl
  | cons kv rest ih =>
      simp only [List.map_cons, List.mem_cons] at h
      push_neg at h
      rw [applyUpserts_cons, ih _ h.2, alGet_upsert_ne _ _ _ _ h.1]

theorem alGet_applyUpserts_nodup {α β : Type} [DecidableEq α] (l : List (α × β))
    (kvs : List (α × β)) (kv : α × β) (hnd : (kvs.map Prod.fst).Nodup) (hm : kv ∈ kvs) :
    alGet (applyUpserts l kvs) kv.1 = some kv.2 := by
  induction kvs generalizing l with
  | nil => cases hm
  | cons hd rest ih =>
      simp only [List.map_cons, List.nodup_cons] at hnd
      rcases List.mem_cons.mp hm with h | h
      · subst h
        rw [applyUpserts_cons, alGet_applyUpserts_notmem _ _ _ hnd.1, alGet_upsert_self]
      · exact ih _ hnd.2 h

theorem applyUpserts_eq_self {α β : Type} [DecidableEq α] (l : List (α × β))
    (kvs : List (α × β)) (h : ∀ kv ∈ kvs, alGet l kv.1 = some kv.2) :
    applyUpserts l kvs = l := by
  induction kvs with
  | nil => rfl
  | cons hd rest ih =>
      rw [applyUpserts_cons, alUpsert_of_get_some _ _ _ (h hd (List.mem_cons_self _ _))]
      exact ih (fun kv hm => h kv (List.mem_cons_of_mem _ hm))

theorem applyErases_nil {α β : Type} [DecidableEq α] (l : List (α × β)) :
    applyErases l [] = l := rfl

theorem applyErases_cons {α β : Type} [DecidableEq α] (l : List (α × β)) (k : α) (ks : List α) :
    applyErases l (k :: ks) = applyErases (alErase l k) ks := rfl

theorem mem_applyErases {α β : Type} [DecidableEq α] (l : List (α × β)) (ks : List α) (kv : α × β) :
    kv ∈ applyErases l ks ↔ kv ∈ l ∧ kv.1 ∉ ks := by
  induction ks generalizing l with
  | nil => simp [applyErases]
  | cons k rest ih =>
      rw [applyErases_cons, ih, mem_alErase]
      simp only [List.mem_cons]
      constructor
      · rintro ⟨⟨h1, h2⟩, h3⟩
        refine ⟨h1, ?_⟩
        rintro (hx | hx)
        · exact h2 hx
        · exact h3 hx
      · rintro ⟨h1, h2⟩
        exact ⟨⟨h1, fun hx => h2 (Or.inl hx)⟩, fun hx => h2 (Or.inr hx)⟩

theorem alGet_applyErases_notmem {α β : Type} [DecidableEq α] (l : List (α × β))
    (ks : List α) (k : α) (h : k ∉ ks) : alGet (applyErases l ks) k = alGet l k := by
  induction ks generalizing l with
  | nil => rfl
  | cons k0 rest ih =>
      simp only [List.mem_cons] at h
      push_neg at h
      rw [applyErases_cons, ih _ h.2, alGet_erase_ne _ _ _ h.1]

theorem warn_protective_frame (env : Env) (st : BotState) (sym side : String) (a b : ℚ) :
    ∃ ns, warn_protective_orders env st sym side a b = { st with notes := st.notes ++ ns } := by
  unfold warn_protective_orders
  by_cases h : |b - a| ≤ eps8
  · refine ⟨[], ?_⟩
    rw [if_pos h]
    simp
  · rw [if_neg h]
    cases hp : env.protective with
    | error u => exact ⟨[], by simp⟩
    | ok ords => exact ⟨protectiveWarnNotes sym side b ords, rfl⟩

theorem warn_protective_positions (env : Env) (st : BotState) (sym side : String) (a b : ℚ) :
    (warn_protective_orders env st sym side a b).positions = st.positions := by
  obtain ⟨ns, h⟩ := warn_protective_frame env st sym side a b
  rw [h]

theorem warn_protective_closedTrades (env : Env) (st : BotState) (sym side : String) (a b : ℚ) :
    (warn_protective_orders env st sym side a b).closedTrades = st.closedTrades := by
  obtain ⟨ns, h⟩ := warn_protective_frame env st sym side a b
  rw [h]

theorem warn_protective_trace (env : Env) (st : BotState) (sym side : String) (a b : ℚ) :
    (warn_protective_orders env st sym side a b).trace = st.trace := by
  obtain ⟨ns, h⟩ := warn_protective_frame env st sym side a b
  rw [h]

theorem warn_protective_ordersTable (env : Env) (st : BotState) (sym side : String) (a b : ℚ) :
    (warn_protective_orders env st sym side a b).orders = st.orders := by
  obtain ⟨ns, h⟩ := warn_protective_frame env st sym side a b
  rw [h]

theorem warn_protective_mirrorPositions (env : Env) (st : BotState) (sym side : String) (a b : ℚ) :
    (warn_protective_orders env st sym side a b).mirrorPositions = st.mirrorPositions := by
  obtain ⟨ns, h⟩ := warn_protective_frame env st sym side a b
  rw [h]

theorem mirror_reduce_positions (cfg : Config) (env : Env) (st : BotState) (sym side : String)
    (fq fp pp : ℚ) : (mirror_reduce cfg env st sym side fq fp pp).positions = st.positions := by
  simp only [mirror_reduce]
  split_ifs <;> rfl

theorem mirror_reduce_closedTrades (cfg : Config) (env : Env) (st : BotState) (sym side : String)
    (fq fp pp : ℚ) : (mirror_reduce cfg env st sym side fq fp pp).closedTrades = st.closedTrades := by
  simp only [mirror_reduce]
  split_ifs <;> rfl

theorem mirror_reduce_ordersTable (cfg : Config) (env : Env) (st : BotState) (sym side : String)
    (fq fp pp : ℚ) : (mirror_reduce cfg env st sym side fq fp pp).orders = st.orders := by
  simp only [mirror_reduce]
  split_ifs <;> rfl

theorem mirror_reduce_trace (cfg : Config) (env : Env) (st : BotState) (sym side : String)
    (fq fp pp : ℚ) :
    ∃ d, (mirror_reduce cfg env st sym side fq fp pp).trace = st.trace ++ d ∧
      ∀ s2 sd2, d.filter (closeOps s2 sd2) = [] := by
  simp only [mirror_reduce]
  split_ifs
  all_goals
    first
    | exact ⟨_, rfl, fun s2 sd2 => by simp [closeOps]⟩
    | exact ⟨[], by simp [addNote], fun s2 sd2 => rfl⟩

theorem mirror_increase_positions (cfg : Config) (env : Env) (st : BotState) (sym side : String)
    (fq fp : ℚ) : (mirror_increase cfg env st sym side fq fp).positions = st.positions := by
  simp only [mirror_increase]
  split_ifs <;> rfl

theorem mirror_increase_closedTrades (cfg : Config) (env : Env) (st : BotState) (sym side : String)
    (fq fp : ℚ) : (mirror_increase cfg env st sym side fq fp).closedTrades = st.closedTrades := by
  simp only [mirror_increase]
  split_ifs <;> rfl

theorem mirror_increase_ordersTable (cfg : Config) (env : Env) (st : BotState) (sym side : String)
    (fq fp : ℚ) : (mirror_increase cfg env st sym side fq fp).orders = st.orders := by
  simp only [mirror_increase]
  split_ifs <;> rfl

theorem mirror_increase_trace (cfg : Config) (env : Env) (st : BotState) (sym side : String)
    (fq fp : ℚ) :
    ∃ d, (mirror_increase cfg env st sym side fq fp).trace = st.trace ++ d ∧
      ∀ s2 sd2, d.filter (closeOps s2 sd2) = [] := by
  simp only [mirror_increase]
  split_ifs
  all_goals
    first
    | exact ⟨_, rfl, fun s2 sd2 => by simp [closeOps]⟩
    | exact ⟨[], by simp [addNote], fun s2 sd2 => rfl⟩

theorem ite_positions (c : Prop) [Decidable c] (a b : BotState) :
    (ite c a b).positions = ite c a.positions b.positions := apply_ite _ _ _ _

theorem ite_closedTrades (c : Prop) [Decidable c] (a b : BotState) :
    (ite c a b).closedTrades = ite c a.closedTrades b.closedTrades := apply_ite _ _ _ _

theorem handleCanceled_positions (st : BotState) (e : Event) (side : String) :
    (handleCanceled st e side).positions = st.positions := rfl

theorem handleExpired_positions (st : BotState) (e : Event) (side : String) :
    (handleExpired st e side).positions = st.positions := rfl

theorem handleNew_positions (st : BotState) (e : Event) (side : String) :
    (handleNew st e side).positions = st.positions := by
  simp only [handleNew]
  split_ifs <;> rfl

theorem handleFill_positions (cfg : Config) (env : Env) (st : BotState) (e : Event) (side : String) :
    (handleFill cfg env st e side).positions =
      if e.l < eps12 then st.positions
      else if e.R = true then
        (if (posOf st (e.s, side)).amt - e.l ≤ eps8 then alErase st.positions (e.s, side)
         else alUpsert st.positions (e.s, side)
           ⟨(posOf st (e.s, side)).amt - e.l, (posOf st (e.s, side)).entry,
            (posOf st (e.s, side)).rpnl + e.rp⟩)
      else alUpsert st.positions (e.s, side)
        ⟨incQtyOf st e side, incAvgOf st e side, (posOf st (e.s, side)).rpnl + e.rp⟩ := by
  simp only [handleFill, posOf, incQtyOf, incAvgOf, ite_positions, warn_protective_positions,
    mirror_reduce_positions, mirror_increase_positions, addNote, pg_delete_order,
    pg_insert_closed_trade, pg_delete_position_main, pg_upsert_position_main, ite_self]

theorem mirror_reduce_traceEq (cfg : Config) (env : Env) (st : BotState) (sym side : String)
    (fq fp pp : ℚ) :
    (mirror_reduce cfg env st sym side fq fp pp).trace =
      st.trace ++ mirrorReduceOps cfg env st sym side fq pp := by
  simp only [mirror_reduce, mirrorReduceOps]
  split_ifs <;> simp [addNote, pg_delete_position_mirror, pg_upsert_position_mirror]

theorem mirrorReduceOps_closeOps (cfg : Config) (env : Env) (st : BotState) (sym side : String)
    (fq pp : ℚ) (s2 sd2 : String) :
    (mirrorReduceOps cfg env st sym side fq pp).filter (closeOps s2 sd2) = [] := by
  simp only [mirrorReduceOps]
  split_ifs <;> simp [closeOps]

theorem mirror_increase_traceEq (cfg : Config) (env : Env) (st : BotState) (sym side : String)
    (fq fp : ℚ) :
    (mirror_increase cfg env st sym side fq fp).trace =
      st.trace ++ mirrorIncreaseOps cfg env st sym side fq fp := by
  simp only [mirror_increase, mirrorIncreaseOps]
  split_ifs <;> simp [addNote, pg_upsert_position_mirror]

theorem mirrorIncreaseOps_closeOps (cfg : Config) (env : Env) (st : BotState) (sym side : String)
    (fq fp : ℚ) (s2 sd2 : String) :
    (mirrorIncreaseOps cfg env st sym side fq fp).filter (closeOps s2 sd2) = [] := by
  simp only [mirrorIncreaseOps]
  split_ifs <;> simp [closeOps]

theorem ite_trace (c : Prop) [Decidable c] (a b : BotState) :
    (ite c a b).trace = ite c a.trace b.trace := apply_ite _ _ _ _

theorem ite_initialSizes (c : Prop) [Decidable c] (a b : BotState) :
    (ite c a b).initialSizes = ite c a.initialSizes b.initialSizes := apply_ite _ _ _ _

theorem handleFill_closedTrades (cfg : Config) (env : Env) (st : BotState) (e : Event) (side : String) :
    (handleFill cfg env st e side).closedTrades =
      if e.l < eps12 then st.closedTrades
      else if e.R = true then
        (if (posOf st (e.s, side)).amt - e.l ≤ eps8 then
          st.closedTrades ++ [fullCloseTrade cfg st e side]
         else st.closedTrades)
      else st.closedTrades := by
  simp only [handleFill, fullCloseTrade, posOf, ite_closedTrades, ite_positions, ite_initialSizes,
    warn_protective_closedTrades, mirror_reduce_closedTrades, mirror_increase_closedTrades,
    addNote, pg_delete_order, pg_insert_closed_trade, pg_delete_position_main,
    pg_upsert_position_main, ite_self]

theorem handleFill_close_trace (cfg : Config) (env : Env) (st : BotState) (e : Event) (side : String)
    (hl : ¬ e.l < eps12) (hR : e.R = true)
    (hc : (posOf st (e.s, side)).amt - e.l ≤ eps8) :
    ((handleFill cfg env st e side).trace.drop st.trace.length).filter (closeOps e.s side) =
      [StoreOp.insertClosed (fullCloseTrade cfg st e side),
       StoreOp.deletePos "positions" e.s side] := by
  simp only [posOf] at hc
  by_cases hm : cfg.mirrorEnabled = true <;>
    by_cases hdo : (isLimitLike e.ot || isChild e.ot) = true <;>
      simp [handleFill, fullCloseTrade, ite_trace, ite_positions, ite_initialSizes,
        warn_protective_trace, mirror_reduce_traceEq, mirrorReduceOps_closeOps,
        addNote, pg_delete_order, pg_insert_closed_trade, pg_delete_position_main,
        hl, hR, hc, hm, hdo, closeOps, List.filter_append, List.drop_left, List.append_assoc]

theorem on_order_fill (cfg : Config) (env : Env) (st : BotState) (e : Event)
    (h : e.X = "FILLED" ∨ e.X = "PARTIALLY_FILLED") :
    on_order cfg env st e = handleFill cfg env st e (decode_side_ws e) := by
  rcases h with h | h <;> simp [on_order, h]

theorem on_order_positions (cfg : Config) (env : Env) (st : BotState) (e : Event) :
    (on_order cfg env st e).positions =
      if e.X = "FILLED" ∨ e.X = "PARTIALLY_FILLED" then
        (handleFill cfg env st e (decode_side_ws e)).positions
      else st.positions := by
  by_cases h : e.X = "FILLED" ∨ e.X = "PARTIALLY_FILLED"
  · rw [on_order_fill cfg env st e h, if_pos h]
  · rw [if_neg h]
    simp only [on_order]
    split_ifs <;>
      first
      | rfl
      | exact handleNew_positions st e _
      | exact absurd (by assumption : e.X = "FILLED" ∨ e.X = "PARTIALLY_FILLED") h

/-- C3: a NEW event whose order id is absent from a successful live
open-orders query is dropped with no store mutation and no
notification: the handler returns the state unchanged. -/
theorem spec_C3 (cfg : Config) (env : Env) (st : BotState) (e : Event) (ids : List ℤ)
    (hX : e.X = "NEW") (hchk : env.openCheck = Except.ok ids)
    (hid : ids.contains e.i = false) :
    on_order cfg env st e = st := by
  have hnm : e.i ∉ ids := by simpa using hid
  have hp : phantomDrop env e.i = true := by simp [phantomDrop, hchk, hnm]
  simp [on_order, hX, hp]

theorem spec_C3_witness : on_order cfg0 envChk st0 eNew = st0 :=
  spec_C3 cfg0 envChk st0 eNew [5] rfl rfl (by decide)

/-- C10: a FILLED or PARTIALLY_FILLED event whose per-event fill is
below 1e-12 only deletes the resting order row (for limit-like or
child types) and changes nothing else; no notification is sent. -/
theorem spec_C10 (cfg : Config) (env : Env) (st : BotState) (e : Event)
    (hst : e.X = "FILLED" ∨ e.X = "PARTIALLY_FILLED") (hl : e.l < eps12) :
    (on_order cfg env st e).positions = st.positions ∧
    (on_order cfg env st e).mirrorPositions = st.mirrorPositions ∧
    (on_order cfg env st e).closedTrades = st.closedTrades ∧
    (on_order cfg env st e).notes = st.notes ∧
    (on_order cfg env st e).orders =
      (if isLimitLike e.ot || isChild e.ot then
        alErase st.orders (e.s, decode_side_ws e, e.i)
       else st.orders) := by
  rw [on_order_fill cfg env st e hst]
  by_cases hdo : (isLimitLike e.ot || isChild e.ot) = true <;>
    simp [handleFill, hl, hdo, pg_delete_order]

theorem spec_C10_witness :
    (on_order cfg0 envOk stP eDust).positions = stP.positions ∧
    (on_order cfg0 envOk stP eDust).mirrorPositions = stP.mirrorPositions ∧
    (on_order cfg0 envOk stP eDust).closedTrades = stP.closedTrades ∧
    (on_order cfg0 envOk stP eDust).notes = stP.notes ∧
    (on_order cfg0 envOk stP eDust).orders =
      (if isLimitLike eDust.ot || isChild eDust.ot then
        alErase stP.orders (eDust.s, decode_side_ws eDust, eDust.i)
       else stP.orders) :=
  spec_C10 cfg0 envOk stP eDust (Or.inr rfl) (by decide)

/-- C6: the risk/reward computation of `_calc_rr` agrees everywhere
with the specification's piecewise rule (stop price ≤ 0 gives ±1 by
the sign of the PnL, a negligible risk amount falls back to the same
rule, otherwise PnL divided by risk rounded to one decimal); in
particular stop price 0 with negative PnL yields exactly −1. -/
theorem spec_C6 :
    (∀ (side : String) (volume pnl entryPrice stopPrice takePrice : ℚ),
      calc_rr side volume pnl entryPrice stopPrice takePrice =
        calcRRSpec side volume pnl entryPrice stopPrice takePrice) ∧
    calc_rr "LONG" 2 (-7) 100 0 0 = -1 := by
  constructor
  · intro side volume pnl entryPrice stopPrice takePrice
    by_cases hs : stopPrice ≤ 0 <;> simp [calc_rr, calcRRSpec, hs]
  · decide

/-- C4 counterexample: when the liveness-check query raises while a
NEW stop-market event is handled, the handler does not abandon the
event; the Order row is upserted, contradicting the claim that no
state is mutated. -/
theorem spec_C4_cex :
    alGet (on_order cfg0 envErr st0 eNew).orders ("BTCUSDT", "LONG", 42) =
      some ⟨1, 95, "NEW"⟩ := by decide

/-- C4 amended: a failing liveness check is only logged; the NEW event
is processed as if the order were live, so for a stop/take order the
Order row is upserted. -/
theorem spec_C4_amended (cfg : Config) (env : Env) (st : BotState) (e : Event) (u : Unit)
    (hX : e.X = "NEW") (hchk : env.openCheck = Except.error u)
    (hch : isChild e.ot = true) (hlim : isLimitLike e.ot = false) :
    (alGet (on_order cfg env st e).orders (e.s, decode_side_ws e, e.i)).isSome = true := by
  have hp : phantomDrop env e.i = false := by simp [phantomDrop, hchk]
  simp only [on_order]
  rw [if_neg (by simp [hp]), if_neg (by rw [hX]; decide), if_neg (by rw [hX]; decide),
    if_pos hX]
  simp only [handleNew]
  rw [if_neg (by simp [hlim]), if_pos hch]
  simp only [addNote, pg_upsert_order]
  rw [alGet_upsert_self]
  rfl

theorem spec_C4_witness :
    (alGet (on_order cfg0 envErr st0 eNew).orders ("BTCUSDT", "LONG", 42)).isSome = true :=
  spec_C4_amended cfg0 envErr st0 eNew () rfl rfl (by decide) (by decide)

/-- C1: a reduce-only fill that brings an existing position's quantity
to within 1e-8 of zero performs a full close: exactly one ClosedTrade
row is appended, the Position row is deleted, and in the store trace
the closed-trade insert precedes the position delete. -/
theorem spec_C1 (cfg : Config) (env : Env) (st : BotState) (e : Event) (q en rp : ℚ)
    (hst : e.X = "FILLED" ∨ e.X = "PARTIALLY_FILLED")
    (hR : e.R = true) (hl : ¬ e.l < eps12)
    (hpos : alGet st.positions (e.s, decode_side_ws e) = some ⟨q, en, rp⟩)
    (hc : q - e.l ≤ eps8) :
    (on_order cfg env st e).closedTrades =
      st.closedTrades ++ [fullCloseTrade cfg st e (decode_side_ws e)] ∧
    alGet (on_order cfg env st e).positions (e.s, decode_side_ws e) = none ∧
    ((on_order cfg env st e).trace.drop st.trace.length).filter
        (closeOps e.s (decode_side_ws e)) =
      [StoreOp.insertClosed (fullCloseTrade cfg st e (decode_side_ws e)),
       StoreOp.deletePos "positions" e.s (decode_side_ws e)] := by
  have hc' : (posOf st (e.s, decode_side_ws e)).amt - e.l ≤ eps8 := by
    simpa [posOf, hpos] using hc
  rw [on_order_fill cfg env st e hst]
  refine ⟨?_, ?_, ?_⟩
  · rw [handleFill_closedTrades]
    simp [hl, hR, hc']
  · rw [handleFill_positions]
    simp [hl, hR, hc', alGet_erase_self]
  · exact handleFill_close_trace cfg env st e _ hl hR hc'

theorem spec_C1_witness :
    (on_order cfg0 envOk stP eClose).closedTrades =
      stP.closedTrades ++ [fullCloseTrade cfg0 stP eClose (decode_side_ws eClose)] ∧
    alGet (on_order cfg0 envOk stP eClose).positions ("BTCUSDT", decode_side_ws eClose) = none ∧
    ((on_order cfg0 envOk stP eClose).trace.drop stP.trace.length).filter
        (closeOps "BTCUSDT" (decode_side_ws eClose)) =
      [StoreOp.insertClosed (fullCloseTrade cfg0 stP eClose (decode_side_ws eClose)),
       StoreOp.deletePos "positions" "BTCUSDT" (decode_side_ws eClose)] :=
  spec_C1 cfg0 envOk stP eClose 5 100 0 (Or.inl rfl) rfl (by decide) (by decide) (by decide)

/-- C9: a reduce-only fill arriving with no Position row takes the
full-close branch: one ClosedTrade row is inserted, its volume is the
cached initial size (zero when no cache entry exists), its entry price
is zero, and the `positions` table is left unchanged (no row is ever
created, no negative quantity stored). -/
theorem spec_C9 (cfg : Config) (env : Env) (st : BotState) (e : Event)
    (hst : e.X = "FILLED" ∨ e.X = "PARTIALLY_FILLED")
    (hR : e.R = true) (hl : ¬ e.l < eps12)
    (hpos : alGet st.positions (e.s, decode_side_ws e) = none) :
    (on_order cfg env st e).closedTrades =
      st.closedTrades ++ [fullCloseTrade cfg st e (decode_side_ws e)] ∧
    (fullCloseTrade cfg st e (decode_side_ws e)).volume =
      (alGet st.initialSizes (e.s, decode_side_ws e)).getD 0 ∧
    (fullCloseTrade cfg st e (decode_side_ws e)).entryPrice = 0 ∧
    (on_order cfg env st e).positions = st.positions := by
  have heps8 : (0 : ℚ) < eps8 := by norm_num [eps8]
  have heps12 : (0 : ℚ) < eps12 := by norm_num [eps12]
  have hel : eps12 ≤ e.l := not_lt.mp hl
  have hc' : (posOf st (e.s, decode_side_ws e)).amt - e.l ≤ eps8 := by
    simp only [posOf, hpos, Option.getD_none]
    linarith
  rw [on_order_fill cfg env st e hst]
  refine ⟨?_, ?_, ?_, ?_⟩
  · rw [handleFill_closedTrades]
    simp [hl, hR, hc']
  · simp [fullCloseTrade, hpos]
  · simp [fullCloseTrade, hpos]
  · rw [handleFill_positions]
    simp [hl, hR, hc', alErase_of_get_none _ _ hpos]

theorem spec_C9_witness :
    (on_order cfg0 envOk st0 eRed).closedTrades =
      st0.closedTrades ++ [fullCloseTrade cfg0 st0 eRed (decode_side_ws eRed)] ∧
    (fullCloseTrade cfg0 st0 eRed (decode_side_ws eRed)).volume =
      (alGet st0.initialSizes ("BTCUSDT", decode_side_ws eRed)).getD 0 ∧
    (fullCloseTrade cfg0 st0 eRed (decode_side_ws eRed)).entryPrice = 0 ∧
    (on_order cfg0 envOk st0 eRed).positions = st0.positions :=
  spec_C9 cfg0 envOk st0 eRed (Or.inl rfl) rfl (by decide) (by decide)

/-- C2: processing one order-update event preserves the invariant that
every Position row has a strictly positive quantity (a row exists only
with quantity > 0), given a well-formed event (cumulative fill at
least the per-event fill); in particular, opening a position and then
fully reducing it leaves no Position row. -/
theorem spec_C2 (cfg : Config) (env : Env) (st : BotState) (e : Event)
    (hinv : PosInv st) (hwf : e.l ≤ e.z) :
    PosInv (on_order cfg env st e) ∧
    alGet (on_order cfg0 envOk (on_order cfg0 envOk st0 eOpen5) eClose).positions
      ("BTCUSDT", "LONG") = none := by
  have heps8 : (0 : ℚ) < eps8 := by norm_num [eps8]
  have heps12 : (0 : ℚ) < eps12 := by norm_num [eps12]
  refine ⟨?_, by decide⟩
  intro k v hget
  rw [on_order_positions] at hget
  by_cases hfill : e.X = "FILLED" ∨ e.X = "PARTIALLY_FILLED"
  swap
  · rw [if_neg hfill] at hget
    exact hinv k v hget
  rw [if_pos hfill, handleFill_positions] at hget
  by_cases hl : e.l < eps12
  · rw [if_pos hl] at hget
    exact hinv k v hget
  rw [if_neg hl] at hget
  have hel : eps12 ≤ e.l := not_lt.mp hl
  by_cases hR : e.R = true
  · rw [if_pos hR] at hget
    by_cases hcl : (posOf st (e.s, decode_side_ws e)).amt - e.l ≤ eps8
    · rw [if_pos hcl] at hget
      by_cases hk : k = (e.s, decode_side_ws e)
      · subst hk
        rw [alGet_erase_self] at hget
        cases hget
      · rw [alGet_erase_ne _ _ _ hk] at hget
        exact hinv k v hget
    · rw [if_neg hcl] at hget
      by_cases hk : k = (e.s, decode_side_ws e)
      · subst hk
        rw [alGet_upsert_self] at hget
        obtain rfl := Option.some.inj hget
        have : eps8 < (posOf st (e.s, decode_side_ws e)).amt - e.l := not_le.mp hcl
        show (0 : ℚ) < (posOf st (e.s, decode_side_ws e)).amt - e.l
        linarith
      · rw [alGet_upsert_ne _ _ _ _ hk] at hget
        exact hinv k v hget
  · rw [if_neg hR] at hget
    by_cases hk : k = (e.s, decode_side_ws e)
    · subst hk
      rw [alGet_upsert_self] at hget
      obtain rfl := Option.some.inj hget
      show (0 : ℚ) < incQtyOf st e (decode_side_ws e)
      by_cases hop : (posOf st (e.s, decode_side_ws e)).amt < eps12
      · rw [incQtyOf, if_pos hop]
        by_cases hx : e.X = "FILLED"
        · rw [if_pos hx]
          linarith
        · rw [if_neg hx]
          linarith
      · rw [incQtyOf, if_neg hop]
        have := not_lt.mp hop
        linarith
    · rw [alGet_upsert_ne _ _ _ _ hk] at hget
      exact hinv k v hget

theorem spec_C2_witness :
    alGet (on_order cfg0 envOk (on_order cfg0 envOk st0 eOpen5) eClose).positions
      ("BTCUSDT", "LONG") = none :=
  (spec_C2 cfg0 envOk st0 eOpen5 (fun k v h => by simp [st0, alGet] at h) (by decide)).2

/-- C7 counterexample: a FILLED non-reduce event with per-event fill 3
but cumulative fill 10 arriving with no prior Position row stores
quantity 10, not oldQty + fillQty = 3, refuting the claim as stated. -/
theorem spec_C7_cex :
    alGet (on_order cfg0 envOk st0 eOpen).positions ("BTCUSDT", "LONG") =
      some ⟨10, 100, 0⟩ ∧ (10 : ℚ) ≠ 0 + 3 := by decide

/-- C7 amended: a non-reduce fill adds the per-event fill quantity and
stores the fill-weighted average entry price when a prior quantity
above 1e-12 exists; with no prior row the stored quantity is the
event's cumulative fill for FILLED events (the per-event fill for
PARTIALLY_FILLED) and the entry price is the fill price. -/
theorem spec_C7_amended (cfg : Config) (env : Env) (st : BotState) (e : Event)
    (hst : e.X = "FILLED" ∨ e.X = "PARTIALLY_FILLED")
    (hR : e.R = false) (hl : ¬ e.l < eps12) :
    (∀ pv : PosVal, alGet st.positions (e.s, decode_side_ws e) = some pv → eps12 < pv.amt →
      alGet (on_order cfg env st e).positions (e.s, decode_side_ws e) =
        some ⟨pv.amt + e.l, (pv.entry * pv.amt + e.ap * e.l) / (pv.amt + e.l),
              pv.rpnl + e.rp⟩) ∧
    (alGet st.positions (e.s, decode_side_ws e) = none →
      alGet (on_order cfg env st e).positions (e.s, decode_side_ws e) =
        some ⟨(if e.X = "FILLED" then e.z else e.l), e.ap, e.rp⟩) := by
  have heps12 : (0 : ℚ) < eps12 := by norm_num [eps12]
  have hel : eps12 ≤ e.l := not_lt.mp hl
  rw [on_order_fill cfg env st e hst]
  constructor
  · intro pv hpv hamt
    have hnop : ¬ (posOf st (e.s, decode_side_ws e)).amt < eps12 := by
      simp only [posOf, hpv, Option.getD_some]
      exact not_lt.mpr (le_of_lt hamt)
    have hqty : incQtyOf st e (decode_side_ws e) = pv.amt + e.l := by
      simp only [incQtyOf, posOf, hpv, Option.getD_some]
      rw [if_neg (not_lt.mpr (le_of_lt hamt))]
    have hamt' : eps12 < (posOf st (e.s, decode_side_ws e)).amt := by
      simpa only [posOf, hpv, Option.getD_some] using hamt
    have havg : incAvgOf st e (decode_side_ws e) =
        (pv.entry * pv.amt + e.ap * e.l) / (pv.amt + e.l) := by
      simp only [incAvgOf, hqty]
      rw [if_pos ⟨by linarith, hamt'⟩]
      simp only [posOf, hpv, Option.getD_some]
    rw [handleFill_positions, if_neg hl, if_neg (by simp [hR]), alGet_upsert_self,
      hqty, havg]
    simp only [posOf, hpv, Option.getD_some]
  · intro hnone
    have hq : incQtyOf st e (decode_side_ws e) = (if e.X = "FILLED" then e.z else e.l) := by
      simp only [incQtyOf, posOf, hnone, Option.getD_none]
      rw [if_pos heps12]
    have havg : incAvgOf st e (decode_side_ws e) = e.ap := by
      simp only [incAvgOf, posOf, hnone, Option.getD_none]
      rw [if_neg]
      rintro ⟨-, hlt⟩
      exact absurd hlt (by norm_num [eps12])
    rw [handleFill_positions, if_neg hl, if_neg (by simp [hR]), alGet_upsert_self,
      hq, havg]
    simp [posOf, hnone]

theorem spec_C7_witness :
    alGet (on_order cfg0 envOk stI eAdd).positions ("BTCUSDT", "LONG") =
      some ⟨20, 110, 0⟩ := by
  show alGet (on_order cfg0 envOk stI eAdd).positions (eAdd.s, decode_side_ws eAdd) =
    some ⟨20, 110, 0⟩
  rw [(spec_C7_amended cfg0 envOk stI eAdd (Or.inl rfl) rfl (by decide)).1
    ⟨10, 100, 0⟩ (by decide) (by decide)]
  decide

/-- C5 counterexample: with mirroring enabled at coefficient 1/2, a
FILLED event of per-event fill 3 and cumulative fill 10 opening a new
position places a mirror order of quantity 5, not fill × coefficient =
3/2, refuting the claim as stated. -/
theorem spec_C5_cex :
    (on_order cfgM envOk st0 eOpen).mirrorOrders =
      [⟨"BTCUSDT", "BUY", 5, false⟩] ∧
    (5 : ℚ) ≠ eOpen.l * cfgM.mirrorCoefficient := by decide

/-- C5 amended: both mirror calls place an order of exactly
coefficient × the quantity passed by the controller (the per-event
fill on every reduce; the cumulative fill when a FILLED event opens a
position with no prior row), and a placement failure leaves the
MirrorPosition table untouched and emits exactly one failure
notification. -/
theorem spec_C5_amended (cfg : Config) (env : Env) (st : BotState) (sym side : String)
    (fq fp pp : ℚ) :
    (mirror_reduce cfg env st sym side fq fp pp).mirrorOrders =
      st.mirrorOrders ++
        [⟨sym, (if side = "SHORT" then "BUY" else "SELL"), fq * cfg.mirrorCoefficient, true⟩] ∧
    (mirror_increase cfg env st sym side fq fp).mirrorOrders =
      st.mirrorOrders ++
        [⟨sym, (if side = "LONG" then "BUY" else "SELL"), fq * cfg.mirrorCoefficient, false⟩] ∧
    (env.mirrorOk = false →
      (mirror_reduce cfg env st sym side fq fp pp).mirrorPositions = st.mirrorPositions ∧
      (mirror_reduce cfg env st sym side fq fp pp).notes =
        st.notes ++ [.mirrorFailClose sym side] ∧
      (mirror_increase cfg env st sym side fq fp).mirrorPositions = st.mirrorPositions ∧
      (mirror_increase cfg env st sym side fq fp).notes =
        st.notes ++ [.mirrorFailOpen sym side]) := by
  refine ⟨?_, ?_, fun hf => ⟨?_, ?_, ?_, ?_⟩⟩
  · simp only [mirror_reduce]
    split_ifs <;> simp [addNote, pg_delete_position_mirror, pg_upsert_position_mirror]
  · simp only [mirror_increase]
    split_ifs <;> simp [addNote, pg_upsert_position_mirror]
  · simp [mirror_reduce, hf, addNote]
  · simp [mirror_reduce, hf, addNote]
  · simp [mirror_increase, hf, addNote]
  · simp [mirror_increase, hf, addNote]

theorem spec_C5_witness :
    (mirror_reduce cfgM envMFail stP "BTCUSDT" "LONG" 4 100 10).mirrorOrders =
      stP.mirrorOrders ++ [⟨"BTCUSDT", "SELL", 4 * cfgM.mirrorCoefficient, true⟩] ∧
    (mirror_reduce cfgM envMFail stP "BTCUSDT" "LONG" 4 100 10).mirrorPositions =
      stP.mirrorPositions ∧
    (mirror_reduce cfgM envMFail stP "BTCUSDT" "LONG" 4 100 10).notes =
      stP.notes ++ [.mirrorFailClose "BTCUSDT" "LONG"] :=
  ⟨(spec_C5_amended cfgM envMFail stP "BTCUSDT" "LONG" 4 100 10).1,
   ((spec_C5_amended cfgM envMFail stP "BTCUSDT" "LONG" 4 100 10).2.2 rfl).1,
   ((spec_C5_amended cfgM envMFail stP "BTCUSDT" "LONG" 4 100 10).2.2 rfl).2.1⟩

theorem snapPosFold_positions (poss : List SnapPos) (st : BotState) (acc : List (String × String)) :
    (poss.foldl snapPosStep (st, acc)).1.positions = applyUpserts st.positions (posKVs poss) := by
  induction poss generalizing st acc with
  | nil => simp [posKVs, keptPos, applyUpserts]
  | cons p rest ih =>
      rw [List.foldl_cons]
      simp only [snapPosStep]
      by_cases hk : posKeepB p = true
      · rw [if_pos hk, ih]
        simp [posKVs, keptPos, List.filter_cons, hk, applyUpserts_cons,
          pg_upsert_position_main, addNote]
      · rw [if_neg hk, ih]
        simp [posKVs, keptPos, List.filter_cons, hk]

theorem snapPosFold_orders (poss : List SnapPos) (st : BotState) (acc : List (String × String)) :
    (poss.foldl snapPosStep (st, acc)).1.orders = st.orders := by
  induction poss generalizing st acc with
  | nil => rfl
  | cons p rest ih =>
      rw [List.foldl_cons]
      simp only [snapPosStep]
      by_cases hk : posKeepB p = true
      · rw [if_pos hk, ih]
        rfl
      · rw [if_neg hk, ih]

theorem snapPosFold_notes (poss : List SnapPos) (st : BotState) (acc : List (String × String)) :
    (poss.foldl snapPosStep (st, acc)).1.notes = st.notes ++ posNotes poss := by
  induction poss generalizing st acc with
  | nil => simp [posNotes, keptPos]
  | cons p rest ih =>
      rw [List.foldl_cons]
      simp only [snapPosStep]
      by_cases hk : posKeepB p = true
      · rw [if_pos hk, ih]
        simp [posNotes, keptPos, List.filter_cons, hk, pg_upsert_position_main, addNote]
      · rw [if_neg hk, ih]
        simp [posNotes, keptPos, List.filter_cons, hk]

theorem snapPosFold_trace (poss : List SnapPos) (st : BotState) (acc : List (String × String)) :
    (poss.foldl snapPosStep (st, acc)).1.trace = st.trace ++ posOps poss := by
  induction poss generalizing st acc with
  | nil => simp [posOps, keptPos]
  | cons p rest ih =>
      rw [List.foldl_cons]
      simp only [snapPosStep]
      by_cases hk : posKeepB p = true
      · rw [if_pos hk, ih]
        simp [posOps, keptPos, List.filter_cons, hk, pg_upsert_position_main, addNote]
      · rw [if_neg hk, ih]
        simp [posOps, keptPos, List.filter_cons, hk]

theorem snapPosFold_snd (poss : List SnapPos) (st : BotState) (acc : List (String × String)) :
    (poss.foldl snapPosStep (st, acc)).2 = acc ++ realPositionsOf poss := by
  induction poss generalizing st acc with
  | nil => simp [realPositionsOf, keptPos]
  | cons p rest ih =>
      rw [List.foldl_cons]
      simp only [snapPosStep]
      by_cases hk : posKeepB p = true
      · rw [if_pos hk, ih]
        simp [realPositionsOf, keptPos, List.filter_cons, hk]
      · rw [if_neg hk, ih]
        simp [realPositionsOf, keptPos, List.filter_cons, hk]

theorem snapOrdFold_orders (ords : List SnapOrder) (st : BotState) (acc : List (String × String × ℤ)) :
    (ords.foldl snapOrdStep (st, acc)).1.orders = applyUpserts st.orders (ordKVs ords) := by
  induction ords generalizing st acc with
  | nil => simp [ordKVs, keptOrd, applyUpserts]
  | cons od rest ih =>
      rw [List.foldl_cons]
      simp only [snapOrdStep]
      by_cases hk : ordKeepB od = true
      · rw [if_pos hk, ih]
        simp [ordKVs, keptOrd, List.filter_cons, hk, applyUpserts_cons,
          pg_upsert_order, addNote]
      · rw [if_neg hk, ih]
        simp [ordKVs, keptOrd, List.filter_cons, hk]

theorem snapOrdFold_positions (ords : List SnapOrder) (st : BotState) (acc : List (String × String × ℤ)) :
    (ords.foldl snapOrdStep (st, acc)).1.positions = st.positions := by
  induction ords generalizing st acc with
  | nil => rfl
  | cons od rest ih =>
      rw [List.foldl_cons]
      simp only [snapOrdStep]
      by_cases hk : ordKeepB od = true
      · rw [if_pos hk, ih]
        rfl
      · rw [if_neg hk, ih]

theorem snapOrdFold_notes (ords : List SnapOrder) (st : BotState) (acc : List (String × String × ℤ)) :
    (ords.foldl snapOrdStep (st, acc)).1.notes = st.notes ++ ordNotes ords := by
  induction ords generalizing st acc with
  | nil => simp [ordNotes, keptOrd]
  | cons od rest ih =>
      rw [List.foldl_cons]
      simp only [snapOrdStep]
      by_cases hk : ordKeepB od = true
      · rw [if_pos hk, ih]
        simp [ordNotes, keptOrd, List.filter_cons, hk, pg_upsert_order, addNote]
      · rw [if_neg hk, ih]
        simp [ordNotes, keptOrd, List.filter_cons, hk]

theorem snapOrdFold_trace (ords : List SnapOrder) (st : BotState) (acc : List (String × String × ℤ)) :
    (ords.foldl snapOrdStep (st, acc)).1.trace = st.trace ++ ordOps ords := by
  induction ords generalizing st acc with
  | nil => simp [ordOps, keptOrd]
  | cons od rest ih =>
      rw [List.foldl_cons]
      simp only [snapOrdStep]
      by_cases hk : ordKeepB od = true
      · rw [if_pos hk, ih]
        simp [ordOps, keptOrd, List.filter_cons, hk, pg_upsert_order, addNote]
      · rw [if_neg hk, ih]
        simp [ordOps, keptOrd, List.filter_cons, hk]

theorem snapOrdFold_snd (ords : List SnapOrder) (st : BotState) (acc : List (String × String × ℤ)) :
    (ords.foldl snapOrdStep (st, acc)).2 = acc ++ realOrdersOf ords := by
  induction ords generalizing st acc with
  | nil => simp [realOrdersOf, keptOrd]
  | cons od rest ih =>
      rw [List.foldl_cons]
      simp only [snapOrdStep]
      by_cases hk : ordKeepB od = true
      · rw [if_pos hk, ih]
        simp [realOrdersOf, keptOrd, List.filter_cons, hk]
      · rw [if_neg hk, ih]
        simp [realOrdersOf, keptOrd, List.filter_cons, hk]

theorem posDelFold_positions (ks real : List (String × String)) (st : BotState) :
    (ks.foldl (fun s k => if k ∈ real then s else pg_delete_position_main s k.1 k.2) st).positions =
      applyErases st.positions (ks.filter (fun k => !(decide (k ∈ real)))) := by
  induction ks generalizing st with
  | nil => rfl
  | cons k rest ih =>
      rw [List.foldl_cons]
      by_cases hm : k ∈ real
      · rw [if_pos hm, ih]
        simp [List.filter_cons, hm]
      · rw [if_neg hm, ih]
        simp [List.filter_cons, hm, pg_delete_position_main, applyErases_cons]

theorem posDelFold_orders (ks real : List (String × String)) (st : BotState) :
    (ks.foldl (fun s k => if k ∈ real then s else pg_delete_position_main s k.1 k.2) st).orders =
      st.orders := by
  induction ks generalizing st with
  | nil => rfl
  | cons k rest ih =>
      rw [List.foldl_cons]
      by_cases hm : k ∈ real
      · rw [if_pos hm, ih]
      · rw [if_neg hm, ih]
        rfl

theorem posDelFold_notes (ks real : List (String × String)) (st : BotState) :
    (ks.foldl (fun s k => if k ∈ real then s else pg_delete_position_main s k.1 k.2) st).notes =
      st.notes := by
  induction ks generalizing st with
  | nil => rfl
  | cons k rest ih =>
      rw [List.foldl_cons]
      by_cases hm : k ∈ real
      · rw [if_pos hm, ih]
      · rw [if_neg hm, ih]
        rfl

theorem posDelFold_trace (ks real : List (String × String)) (st : BotState) :
    (ks.foldl (fun s k => if k ∈ real then s else pg_delete_position_main s k.1 k.2) st).trace =
      st.trace ++ (ks.filter (fun k => !(decide (k ∈ real)))).map
        (fun k => StoreOp.deletePos "positions" k.1 k.2) := by
  induction ks generalizing st with
  | nil => simp
  | cons k rest ih =>
      rw [List.foldl_cons]
      by_cases hm : k ∈ real
      · rw [if_pos hm, ih]
        simp [List.filter_cons, hm]
      · rw [if_neg hm, ih]
        simp [List.filter_cons, hm, pg_delete_position_main]

theorem ordDelFold_orders (ks real : List (String × String × ℤ)) (st : BotState) :
    (ks.foldl (fun s k => if k ∈ real then s else pg_delete_order s k.1 k.2.1 k.2.2) st).orders =
      applyErases st.orders (ks.filter (fun k => !(decide (k ∈ real)))) := by
  induction ks generalizing st with
  | nil => rfl
  | cons k rest ih =>
      rw [List.foldl_cons]
      by_cases hm : k ∈ real
      · rw [if_pos hm, ih]
        simp [List.filter_cons, hm]
      · rw [if_neg hm, ih]
        simp [List.filter_cons, hm, pg_delete_order, applyErases_cons]

theorem ordDelFold_positions (ks real : List (String × String × ℤ)) (st : BotState) :
    (ks.foldl (fun s k => if k ∈ real then s else pg_delete_order s k.1 k.2.1 k.2.2) st).positions =
      st.positions := by
  induction ks generalizing st with
  | nil => rfl
  | cons k rest ih =>
      rw [List.foldl_cons]
      by_cases hm : k ∈ real
      · rw [if_pos hm, ih]
      · rw [if_neg hm, ih]
        rfl

theorem ordDelFold_notes (ks real : List (String × String × ℤ)) (st : BotState) :
    (ks.foldl (fun s k => if k ∈ real then s else pg_delete_order s k.1 k.2.1 k.2.2) st).notes =
      st.notes := by
  induction ks generalizing st with
  | nil => rfl
  | cons k rest ih =>
      rw [List.foldl_cons]
      by_cases hm : k ∈ real
      · rw [if_pos hm, ih]
      · rw [if_neg hm, ih]
        rfl

theorem ordDelFold_trace (ks real : List (String × String × ℤ)) (st : BotState) :
    (ks.foldl (fun s k => if k ∈ real then s else pg_delete_order s k.1 k.2.1 k.2.2) st).trace =
      st.trace ++ (ks.filter (fun k => !(decide (k ∈ real)))).map
        (fun k => StoreOp.deleteOrder k.1 k.2.1 k.2.2) := by
  induction ks generalizing st with
  | nil => simp
  | cons k rest ih =>
      rw [List.foldl_cons]
      by_cases hm : k ∈ real
      · rw [if_pos hm, ih]
        simp [List.filter_cons, hm]
      · rw [if_neg hm, ih]
        simp [List.filter_cons, hm, pg_delete_order]

theorem sync_start_positions (st : BotState) (poss : List SnapPos) (ords : List SnapOrder) :
    (sync_start st poss ords).positions =
      applyErases (applyUpserts st.positions (posKVs poss))
        (((applyUpserts st.positions (posKVs poss)).map (fun kv => kv.1)).filter
          (fun k => !(decide (k ∈ realPositionsOf poss)))) := by
  simp only [sync_start, ordDelFold_positions, posDelFold_positions, snapOrdFold_positions,
    snapPosFold_positions, snapPosFold_snd, List.nil_append]

theorem sync_start_orders (st : BotState) (poss : List SnapPos) (ords : List SnapOrder) :
    (sync_start st poss ords).orders =
      applyErases (applyUpserts st.orders (ordKVs ords))
        (((applyUpserts st.orders (ordKVs ords)).map (fun kv => kv.1)).filter
          (fun k => !(decide (k ∈ realOrdersOf ords)))) := by
  simp only [sync_start, ordDelFold_orders, posDelFold_orders, snapOrdFold_orders,
    snapPosFold_orders, snapOrdFold_snd, List.nil_append]

theorem sync_start_notes (st : BotState) (poss : List SnapPos) (ords : List SnapOrder) :
    (sync_start st poss ords).notes = st.notes ++ (posNotes poss ++ ordNotes ords) := by
  simp only [sync_start, ordDelFold_notes, posDelFold_notes, snapOrdFold_notes,
    snapPosFold_notes, List.append_assoc]

theorem sync_start_trace (st : BotState) (poss : List SnapPos) (ords : List SnapOrder) :
    (sync_start st poss ords).trace =
      st.trace ++ (posOps poss ++ (ordOps ords ++
        ((((applyUpserts st.positions (posKVs poss)).map (fun kv => kv.1)).filter
            (fun k => !(decide (k ∈ realPositionsOf poss)))).map
          (fun k => StoreOp.deletePos "positions" k.1 k.2) ++
        (((applyUpserts st.orders (ordKVs ords)).map (fun kv => kv.1)).filter
            (fun k => !(decide (k ∈ realOrdersOf ords)))).map
          (fun k => StoreOp.deleteOrder k.1 k.2.1 k.2.2)))) := by
  simp only [sync_start, ordDelFold_trace, posDelFold_trace, snapOrdFold_trace,
    snapPosFold_trace, snapOrdFold_positions, snapPosFold_positions, snapOrdFold_orders,
    posDelFold_orders, snapPosFold_orders, snapPosFold_snd, snapOrdFold_snd,
    List.nil_append, List.append_assoc]

theorem posKVs_keys (poss : List SnapPos) :
    (posKVs poss).map (fun kv => kv.1) = realPositionsOf poss := by
  simp [posKVs, realPositionsOf, List.map_map]

theorem ordKVs_keys (ords : List SnapOrder) :
    (ordKVs ords).map (fun kv => kv.1) = realOrdersOf ords := by
  simp [ordKVs, realOrdersOf, List.map_map]

theorem posOps_filter_delete (poss : List SnapPos) :
    (posOps poss).filter isDeleteOp = [] := by
  rw [List.filter_eq_nil]
  intro x hx
  simp only [posOps, List.mem_map] at hx
  obtain ⟨p, -, rfl⟩ := hx
  simp [isDeleteOp]

theorem ordOps_filter_delete (ords : List SnapOrder) :
    (ordOps ords).filter isDeleteOp = [] := by
  rw [List.filter_eq_nil]
  intro x hx
  simp only [ordOps, List.mem_map] at hx
  obtain ⟨od, -, rfl⟩ := hx
  simp [isDeleteOp]

theorem posOps_filter_upsert (poss : List SnapPos) :
    (posOps poss).filter isUpsertOp = posOps poss := by
  rw [List.filter_eq_self]
  intro x hx
  simp only [posOps, List.mem_map] at hx
  obtain ⟨p, -, rfl⟩ := hx
  simp [isUpsertOp]

theorem ordOps_filter_upsert (ords : List SnapOrder) :
    (ordOps ords).filter isUpsertOp = ordOps ords := by
  rw [List.filter_eq_self]
  intro x hx
  simp only [ordOps, List.mem_map] at hx
  obtain ⟨od, -, rfl⟩ := hx
  simp [isUpsertOp]

theorem delPosOps_filter_upsert (ks : List (String × String)) :
    (ks.map (fun k => StoreOp.deletePos "positions" k.1 k.2)).filter isUpsertOp = [] := by
  rw [List.filter_eq_nil]
  intro x hx
  simp only [List.mem_map] at hx
  obtain ⟨k, -, rfl⟩ := hx
  simp [isUpsertOp]

theorem delOrdOps_filter_upsert (ks : List (String × String × ℤ)) :
    (ks.map (fun k => StoreOp.deleteOrder k.1 k.2.1 k.2.2)).filter isUpsertOp = [] := by
  rw [List.filter_eq_nil]
  intro x hx
  simp only [List.mem_map] at hx
  obtain ⟨k, -, rfl⟩ := hx
  simp [isUpsertOp]

theorem sync_pos_key_real (st : BotState) (poss : List SnapPos) (ords : List SnapOrder)
    (kv : (String × String) × PosVal) (h : kv ∈ (sync_start st poss ords).positions) :
    kv.1 ∈ realPositionsOf poss := by
  rw [sync_start_positions, mem_applyErases] at h
  obtain ⟨hmem, hnot⟩ := h
  by_contra hreal
  apply hnot
  rw [List.mem_filter]
  exact ⟨List.mem_map_of_mem _ hmem, by simp [hreal]⟩

theorem sync_ord_key_real (st : BotState) (poss : List SnapPos) (ords : List SnapOrder)
    (kv : (String × String × ℤ) × OrderVal) (h : kv ∈ (sync_start st poss ords).orders) :
    kv.1 ∈ realOrdersOf ords := by
  rw [sync_start_orders, mem_applyErases] at h
  obtain ⟨hmem, hnot⟩ := h
  by_contra hreal
  apply hnot
  rw [List.mem_filter]
  exact ⟨List.mem_map_of_mem _ hmem, by simp [hreal]⟩

theorem sync_pos_get (st : BotState) (poss : List SnapPos) (ords : List SnapOrder)
    (hnd : (realPositionsOf poss).Nodup) (kv : (String × String) × PosVal)
    (hkv : kv ∈ posKVs poss) :
    alGet (sync_start st poss ords).positions kv.1 = some kv.2 := by
  rw [sync_start_positions]
  have hreal : kv.1 ∈ realPositionsOf poss := by
    rw [← posKVs_keys]
    exact List.mem_map_of_mem _ hkv
  have hnotbad :
      kv.1 ∉ ((applyUpserts st.positions (posKVs poss)).map (fun kv => kv.1)).filter
        (fun k => !(decide (k ∈ realPositionsOf poss))) := by
    intro hbad
    rw [List.mem_filter] at hbad
    simp [hreal] at hbad
  rw [alGet_applyErases_notmem _ _ _ hnotbad]
  exact alGet_applyUpserts_nodup _ _ _ (by rw [posKVs_keys]; exact hnd) hkv

theorem sync_ord_get (st : BotState) (poss : List SnapPos) (ords : List SnapOrder)
    (hnd : (realOrdersOf ords).Nodup) (kv : (String × String × ℤ) × OrderVal)
    (hkv : kv ∈ ordKVs ords) :
    alGet (sync_start st poss ords).orders kv.1 = some kv.2 := by
  rw [sync_start_orders]
  have hreal : kv.1 ∈ realOrdersOf ords := by
    rw [← ordKVs_keys]
    exact List.mem_map_of_mem _ hkv
  have hnotbad :
      kv.1 ∉ ((applyUpserts st.orders (ordKVs ords)).map (fun kv => kv.1)).filter
        (fun k => !(decide (k ∈ realOrdersOf ords))) := by
    intro hbad
    rw [List.mem_filter] at hbad
    simp [hreal] at hbad
  rw [alGet_applyErases_notmem _ _ _ hnotbad]
  exact alGet_applyUpserts_nodup _ _ _ (by rw [ordKVs_keys]; exact hnd) hkv

/-- C8 counterexample: syncing twice against the same one-position
snapshot re-emits the per-position restart notification, so the second
pass does produce a duplicate notification, refuting the claim's
"no duplicate notifications". -/
theorem spec_C8_cex :
    (sync_start (sync_start st0 posSnap1 []) posSnap1 []).notes =
      [Note.restartPos "BTCUSDT" "LONG", Note.restartPos "BTCUSDT" "LONG"] := by decide

/-- C8 amended: with an unchanged exchange snapshot (whose decoded
position and order key sets are duplicate-free), the second sync pass
leaves the Position and Order tables exactly as the first pass left
them, performs no deletes, and repeats exactly the first pass's
upserts; however, each pass re-emits the same per-item restart
notifications, so the notifications are duplicated rather than
suppressed. -/
theorem spec_C8 (st : BotState) (poss : List SnapPos) (ords : List SnapOrder)
    (hndp : (realPositionsOf poss).Nodup) (hndo : (realOrdersOf ords).Nodup) :
    (sync_start (sync_start st poss ords) poss ords).positions =
      (sync_start st poss ords).positions ∧
    (sync_start (sync_start st poss ords) poss ords).orders =
      (sync_start st poss ords).orders ∧
    (sync_start (sync_start st poss ords) poss ords).trace =
      (sync_start st poss ords).trace ++ (posOps poss ++ ordOps ords) ∧
    (posOps poss ++ ordOps ords).filter isDeleteOp = [] ∧
    (∃ d1, (sync_start st poss ords).trace = st.trace ++ d1 ∧
      d1.filter isUpsertOp = posOps poss ++ ordOps ords) ∧
    (sync_start (sync_start st poss ords) poss ords).notes =
      (sync_start st poss ords).notes ++ (posNotes poss ++ ordNotes ords) ∧
    (sync_start st poss ords).notes = st.notes ++ (posNotes poss ++ ordNotes ords) := by
  have hT2 : applyUpserts (sync_start st poss ords).positions (posKVs poss) =
      (sync_start st poss ords).positions :=
    applyUpserts_eq_self _ _ (fun kv hkv => sync_pos_get st poss ords hndp kv hkv)
  have hT2o : applyUpserts (sync_start st poss ords).orders (ordKVs ords) =
      (sync_start st poss ords).orders :=
    applyUpserts_eq_self _ _ (fun kv hkv => sync_ord_get st poss ords hndo kv hkv)
  have hbad2 : (((sync_start st poss ords).positions).map (fun kv => kv.1)).filter
      (fun k => !(decide (k ∈ realPositionsOf poss))) = [] := by
    rw [List.filter_eq_nil]
    intro k hk
    rw [List.mem_map] at hk
    obtain ⟨kv, hkv, rfl⟩ := hk
    simp [sync_pos_key_real st poss ords kv hkv]
  have hbad2o : (((sync_start st poss ords).orders).map (fun kv => kv.1)).filter
      (fun k => !(decide (k ∈ realOrdersOf ords))) = [] := by
    rw [List.filter_eq_nil]
    intro k hk
    rw [List.mem_map] at hk
    obtain ⟨kv, hkv, rfl⟩ := hk
    simp [sync_ord_key_real st poss ords kv hkv]
  refine ⟨?_, ?_, ?_, ?_, ?_, ?_, ?_⟩
  · rw [sync_start_positions (sync_start st poss ords) poss ords, hT2, hbad2, applyErases_nil]
  · rw [sync_start_orders (sync_start st poss ords) poss ords, hT2o, hbad2o, applyErases_nil]
  · rw [sync_start_trace (sync_start st poss ords) poss ords, hT2, hT2o, hbad2, hbad2o]
    simp
  · rw [List.filter_append, posOps_filter_delete, ordOps_filter_delete]
    rfl
  · refine ⟨_, sync_start_trace st poss ords, ?_⟩
    simp only [List.filter_append, posOps_filter_upsert, ordOps_filter_upsert,
      delPosOps_filter_upsert, delOrdOps_filter_upsert, List.append_nil]
  · exact sync_start_notes (sync_start st poss ords) poss ords
  · exact sync_start_notes st poss ords

theorem spec_C8_witness :
    (sync_start (sync_start st0 posSnap1 ordSnap1) posSnap1 ordSnap1).positions =
      (sync_start st0 posSnap1 ordSnap1).positions :=
  (spec_C8 st0 posSnap1 ordSnap1 (by decide) (by decide)).1
